import Mathlib

/-!
Verification of the custom-mode configuration pipeline: record model, per-store
loaders, four-store precedence merge, write routing, write-queue drain, watcher
self-suppression, legacy-file deletion, and `.roomodes` → YAML migration.

Maps and YAML/JSON objects are embedded as insertion-ordered association lists
(`mapSet` replaces the first matching key in place, as `Map.set` / JS object
assignment does). File contents are embedded at the structured level: a YAML or
JSON document is represented by its parsed shape, with `none` marking a file
that is missing or failed to parse.
-/

namespace RooModes

/-- JavaScript's `a ?? b` / `a.or b` on options: first value if present. -/
def optOr {α : Type} : Option α → Option α → Option α
  | some a, _ => some a
  | none, b => b

/-- Insertion-ordered map update, as `Map.set` / JS object assignment: replace
the first entry with the given key in place, otherwise append at the end. -/
def mapSet {α : Type} : List (String × α) → String → α → List (String × α)
  | [], k, v => [(k, v)]
  | p :: rest, k, v => if p.1 = k then (k, v) :: rest else p :: mapSet rest k v

/-- Map lookup: value of the first entry with the given key. -/
def mapGet {α : Type} : List (String × α) → String → Option α
  | [], _ => none
  | p :: rest, k => if p.1 = k then some p.2 else mapGet rest k

/-- The keys of an association list, in order. -/
def keysOf {α : Type} (m : List (String × α)) : List String :=
  m.map Prod.fst

/-- The value of the last entry with the given key, if any (what a sequence of
`mapSet` inserts leaves behind for that key). -/
def lastVal {α : Type} : List (String × α) → String → Option α
  | [], _ => none
  | p :: l, k => optOr (lastVal l k) (if p.1 = k then some p.2 else none)

/-- Insert every entry of `l` into `m` in order via `mapSet` (a loop of
`map.set(slug, config)` calls). -/
def addAll {α : Type} (m : List (String × α)) (l : List (String × α)) : List (String × α) :=
  l.foldl (fun acc p => mapSet acc p.1 p.2) m

/-- A loop that, for each element, either derives a key/value pair and inserts
it with `mapSet`, or skips the element (`continue`). -/
def foldInsert {α β : Type} (f : β → Option (String × α)) (init : List (String × α))
    (l : List β) : List (String × α) :=
  l.foldl (fun acc x => match f x with | some p => mapSet acc p.1 p.2 | none => acc) init

/-- Slug validation from the loaders and the migration command: the JavaScript
test `!slug || !/^[a-zA-Z0-9-]+$/.test(slug)` rejects exactly the strings that
are empty or contain a character outside `[a-zA-Z0-9-]`. -/
def isValidSlug (s : String) : Bool :=
  s ≠ "" && s.toList.all (fun c => c.isAlphanum || c = '-')

/-- JavaScript's `String.prototype.trim`: strip leading and trailing
whitespace. -/
def jsTrim (s : String) : String :=
  String.mk (((s.data.dropWhile Char.isWhitespace).reverse.dropWhile
    Char.isWhitespace).reverse)

/-- JavaScript `input || default` on an optional string: the default replaces
a missing value and the (falsy) empty string. -/
def jsOrString (o : Option String) (d : String) : String :=
  match o with
  | some s => if s = "" then d else s
  | none => d

/-- `fileRegex` / `description` options attached to a capability group
(`groupOptionsSchema` in `src/modeSchemas.ts`). -/
structure GroupOptions where
  fileRegex : Option String
  description : Option String
deriving DecidableEq

/-- Storage scope of a record: which root produced it. -/
inductive Source
  | global
  | project
deriving DecidableEq

/-- On-disk format provenance of a record (`origin` / `format` in the code):
`yaml` is the split per-file format, `json` the legacy aggregate format. -/
inductive Origin
  | yaml
  | json
deriving DecidableEq

/-- The internal `ModeConfig` of `src/modeSchemas.ts`: groups are a mapping
from group name to optional options (`Record<string, GroupOptions | undefined>`). -/
structure ModeConfig where
  slug : String
  name : String
  roleDefinition : String
  customInstructions : Option String
  groups : List (String × Option GroupOptions)
  source : Source
  origin : Origin
deriving DecidableEq

/-- One element of a legacy `groups` array: a bare group name, a
`[name, options]` pair, or some other malformed entry (skipped on conversion). -/
inductive GroupEntryV1
  | bare (name : String)
  | withOpts (name : String) (opts : GroupOptions)
  | malformed
deriving DecidableEq

/-- A raw record body from a legacy `.roomodes` aggregate file, before any
validation: every field may be missing. -/
structure RawV1Mode where
  slug : Option String
  name : Option String
  roleDefinition : Option String
  customInstructions : Option String
  groups : Option (List GroupEntryV1)
deriving DecidableEq

/-- A raw parsed split-format YAML document, before schema validation. The
`slug` field models a slug declared inside the file content. -/
structure RawV2Doc where
  slug : Option String
  name : Option String
  roleDefinition : Option String
  customInstructions : Option String
  groups : Option (List (String × Option GroupOptions))
deriving DecidableEq

/-- The output shape of `modeConfigInputSchemaV2` (`src/modeSchemas.ts`):
validated name, role definition, optional custom instructions, and groups as a
mapping. Also the body written to a split-format file (`convertInternalToV2`). -/
structure ModeConfigInputV2 where
  name : String
  roleDefinition : String
  customInstructions : Option String
  groups : List (String × Option GroupOptions)
deriving DecidableEq

/-- The recognized capability-group names (`toolGroups` in `src/modeSchemas.ts`). -/
def toolGroups : List String :=
  ["read", "edit", "browser", "command", "mcp", "modes"]

/-- `modeConfigInputSchemaV2.safeParse`: requires a non-empty `name`, a
non-empty `roleDefinition`, and `groups` as a mapping whose keys are recognized
group names; `customInstructions` is optional; a declared `slug` is stripped. -/
def schemaV2Parse (doc : RawV2Doc) : Option ModeConfigInputV2 :=
  match doc.name, doc.roleDefinition, doc.groups with
  | some n, some r, some g =>
      if n ≠ "" ∧ r ≠ "" ∧ g.all (fun p => toolGroups.contains p.1) then
        some { name := n, roleDefinition := r, customInstructions := doc.customInstructions,
               groups := g }
      else none
  | _, _, _ => none

/-- `convertV1ToInternal` from `src/services/modeConfig.ts` (part_003) and
`src/commands/migrateRoomodes.ts`: groups array folded into an object, missing
`name` defaulted to the slug, missing `roleDefinition` defaulted to `""`. -/
def convertV1ToInternal (input : RawV1Mode) (slug : String) (source : Source)
    (origin : Origin) : ModeConfig :=
  let groupsArray := input.groups.getD []
  let groups := groupsArray.foldl (fun acc e =>
    match e with
    | GroupEntryV1.bare n => mapSet acc n none
    | GroupEntryV1.withOpts n o => mapSet acc n (some o)
    | GroupEntryV1.malformed => acc) []
  { slug := slug
    name := jsOrString input.name slug
    roleDefinition := jsOrString input.roleDefinition ""
    customInstructions := input.customInstructions
    groups := groups
    source := source
    origin := origin }

/-- `convertInternalToV2` / `convertToYamlFormat` from part_003: the body
written to a split-format YAML file (slug, source and origin are dropped). -/
def convertInternalToV2 (mode : ModeConfig) : ModeConfigInputV2 :=
  { name := mode.name
    roleDefinition := mode.roleDefinition
    customInstructions := mode.customInstructions
    groups := mode.groups }

/-- The YAML document a written `ModeConfigInputV2` body reads back as: all its
fields present, no slug declared. -/
def docOfFileData (v : ModeConfigInputV2) : RawV2Doc :=
  { slug := none
    name := some v.name
    roleDefinition := some v.roleDefinition
    customInstructions := v.customInstructions
    groups := some v.groups }

/-- A store of loaded modes keyed by slug, as built by a `Map<string, ModeConfig>`. -/
abbrev Store : Type := List (String × ModeConfig)

/-- The loop body of `loadRoomodesModes` (part_003): entries with a missing or
invalid slug are skipped with a warning; the rest are converted with origin
`json` and keyed by their declared slug. -/
def roomodesEntry (source : Source) (mode : RawV1Mode) : Option (String × ModeConfig) :=
  match mode.slug with
  | none => none
  | some slug =>
      if isValidSlug slug then
        some (slug, convertV1ToInternal mode slug source Origin.json)
      else none

/-- `loadRoomodesModes` (part_003): the input is `none` when the file is
missing, unreadable, unparsable, or its `customModes` is not an array (all of
which yield an empty map); otherwise each entry with a valid slug is converted
with origin `json` and inserted, later duplicates overwriting earlier ones. -/
def loadRoomodesModes (data : Option (List RawV1Mode)) (source : Source) : Store :=
  match data with
  | none => []
  | some modes => foldInsert (roomodesEntry source) [] modes

/-- A candidate file of a split-format directory: filename stem and extension,
and the parsed document (`none` when reading or YAML parsing fails). -/
structure YamlDirFile where
  stem : String
  ext : String
  parsed : Option RawV2Doc
deriving DecidableEq

/-- The per-file body of `loadGlobalYamlModes` / `loadProjectYamlModes`
(part_003): keep `.yaml` files, take the slug from the filename stem, reject
invalid slugs before reading, schema-validate, tag with origin `yaml`. -/
def yamlDirEntry (source : Source) (f : YamlDirFile) : Option (String × ModeConfig) :=
  if f.ext = "yaml" then
    if isValidSlug f.stem then
      match f.parsed with
      | none => none
      | some doc =>
          match schemaV2Parse doc with
          | none => none
          | some v =>
              some (f.stem,
                { slug := f.stem, name := v.name, roleDefinition := v.roleDefinition,
                  customInstructions := v.customInstructions, groups := v.groups,
                  source := source, origin := Origin.yaml })
    else none
  else none

/-- The shared body of `loadGlobalYamlModes` / `loadProjectYamlModes`
(part_003): enumerate the split directory and insert every surviving record. -/
def loadYamlModesDir (files : List YamlDirFile) (source : Source) : Store :=
  foldInsert (yamlDirEntry source) [] files

/-- `loadAllModes` (part_003): insert global `.roomodes` modes, then global
YAML modes, then project `.roomodes` modes, then project YAML modes into one
map, each later store overwriting earlier ones slug by slug. -/
def loadAllModes (globalYamlModes globalRoomodesModes projectYamlModes
    projectRoomodesModes : Store) : Store :=
  addAll (addAll (addAll (addAll [] globalRoomodesModes) globalYamlModes)
    projectRoomodesModes) projectYamlModes

/-- A record as pushed by `YamlModesManager.walk`
(`src/core/config/YamlModesManager.ts`): the parsed file content spread as-is
with the store's `source`; only truthiness of `slug` was checked. -/
structure WalkMode where
  slug : String
  name : Option String
  roleDefinition : Option String
  customInstructions : Option String
  groups : Option (List (String × Option GroupOptions))
  source : Source
deriving DecidableEq

/-- The per-file body of `YamlModesManager.walk`: accept `.yaml`/`.yml` files,
parse, and push the content with the store's source whenever the content
declares a truthy `slug` — no slug-format check and no schema validation. -/
def walkDecodeFile (source : Source) (f : YamlDirFile) : Option WalkMode :=
  if f.ext = "yaml" ∨ f.ext = "yml" then
    match f.parsed with
    | none => none
    | some doc =>
        match doc.slug with
        | none => none
        | some s =>
            if s ≠ "" then
              some { slug := s, name := doc.name, roleDefinition := doc.roleDefinition,
                     customInstructions := doc.customInstructions, groups := doc.groups,
                     source := source }
            else none
  else none

/-- `YamlModesManager.scanModes`: walk the project `.roo/modes` tree (flattened
to a file list) collecting every record `walk` accepts; `getYamlModes` returns
this bucket on a cache miss. -/
def scanModes (files : List YamlDirFile) : List WalkMode :=
  files.filterMap (walkDecodeFile Source.project)

/-- A record in the `src/utils/yamlUtils.ts` world, where `groups` is an array
of entries (bare name or `[name, options]`). -/
inductive GroupEntry
  | bare (name : String)
  | withOpts (name : String) (opts : GroupOptions)
deriving DecidableEq

/-- The `ModeConfig` shape passed to `saveModeAsYaml`
(`src/utils/yamlUtils.ts`): groups as an entry array, `format` provenance. -/
structure ModeConfigY where
  slug : String
  name : String
  roleDefinition : String
  customInstructions : Option String
  groups : List GroupEntry
  source : Source
  format : Origin
deriving DecidableEq

/-- Modelled from the spec: `convertGroupsArrayToObject` lives in
`src/schemas/index`, which is not in the repository. Per the spec's codec
section, the list-of-entries groups shape reduces to a mapping from group name
to optional options (a bare name maps to an empty marker). -/
def convertGroupsArrayToObject (groups : List GroupEntry) :
    List (String × Option GroupOptions) :=
  groups.foldl (fun acc e =>
    match e with
    | GroupEntry.bare n => mapSet acc n none
    | GroupEntry.withOpts n o => mapSet acc n (some o)) []

/-- `saveModeAsYaml` (`src/utils/yamlUtils.ts`): trim `roleDefinition`
(falling back to `""` when the trim is empty) and `customInstructions`, convert
groups to the object form, drop `slug`/`source`/`format` from the body, and
write the body to `<dir>/<slug>.yaml`. Returns (filename stem, written body). -/
def saveModeAsYamlData (mode : ModeConfigY) : String × ModeConfigInputV2 :=
  (mode.slug,
   { name := mode.name
     roleDefinition := jsOrString (some (jsTrim mode.roleDefinition)) ""
     customInstructions := mode.customInstructions.map jsTrim
     groups := convertGroupsArrayToObject mode.groups })

/-- Modelled from the spec: `modeConfigInputSchema` lives in
`src/schemas/index`, which is not in the repository. Per the spec's codec
section it validates a required non-empty `name`, a required non-empty
`roleDefinition`, optional `customInstructions`, and `groups` as a mapping from
group name to optional options — the same checks as `modeConfigInputSchemaV2`. -/
def modeConfigInputParse (doc : RawV2Doc) : Option ModeConfigInputV2 :=
  schemaV2Parse doc

/-- The record returned by `loadModeFromYamlFile`: slug from the filename,
source from the file location, format `yaml`. -/
structure LoadedMode where
  slug : String
  name : String
  roleDefinition : String
  customInstructions : Option String
  groups : List (String × Option GroupOptions)
  source : Source
  format : Origin
deriving DecidableEq

/-- `loadModeFromYamlFile` (`src/utils/yamlUtils.ts`): slug is the filename
stem, rejected unless it matches `^[a-zA-Z0-9-]+$`; the parsed content is
schema-validated; `source` is `project` exactly when the path lies under
`.roo/modes/`. -/
def loadModeFromYamlFile (stem : String) (isProjectPath : Bool) (doc : RawV2Doc) :
    Option LoadedMode :=
  if isValidSlug stem then
    match modeConfigInputParse doc with
    | none => none
    | some v =>
        some { slug := stem, name := v.name, roleDefinition := v.roleDefinition,
               customInstructions := v.customInstructions, groups := v.groups,
               source := if isProjectPath then Source.project else Source.global,
               format := Origin.yaml }
  else none

/-- Outcome of one queued write operation: it either resolves or rejects. -/
inductive OpResult
  | ok
  | err
deriving DecidableEq

/-- `CustomModesManager.processWriteQueue`
(`src/core/config/CustomModesManager.ts`): a `while` loop shifts and awaits
operations; a rejection escapes the loop through the `finally`, so the drain
stops. Returns (operations run in order, operations left queued, whether an
exception escaped). -/
def processQueueCustom : List OpResult → List OpResult × List OpResult × Bool
  | [] => ([], [], false)
  | OpResult.ok :: rest =>
      let r := processQueueCustom rest
      (OpResult.ok :: r.1, r.2.1, r.2.2)
  | OpResult.err :: rest => ([OpResult.err], rest, true)

/-- `YamlModesManager.processWriteQueue` (part_005): shift and await one
operation; the `finally` block drains the remainder recursively, so a rejection
does not stop later operations. Returns (operations run in order, operations
left queued, whether any operation rejected). -/
def processQueueYaml : List OpResult → List OpResult × List OpResult × Bool
  | [] => ([], [], false)
  | op :: rest =>
      let r := processQueueYaml rest
      (op :: r.1, r.2.1, r.2.2 || (op == OpResult.err))

/-- Kind of a file-system watcher event. -/
inductive FileEventKind
  | change
  | create
  | delete
deriving DecidableEq

/-- The watcher handlers of `YamlModesManager.watchYamlModesFiles` (part_005):
returns whether the cache is cleared and the refresh callback invoked. The
change handler skips slugs in `editLock`; the create and delete handlers run
unconditionally. -/
def handleWatcherEvent (editLock : List String) (kind : FileEventKind)
    (slug : String) : Bool :=
  match kind with
  | FileEventKind.change => if editLock.contains slug then false else true
  | FileEventKind.create => true
  | FileEventKind.delete => true

/-- A physical write target of the mode stores: the project or global legacy
aggregate file, a per-slug file in the project or global split directory, or
the global settings file `settings/custom-modes.json` used by
`CustomModesManager`. -/
inductive WriteLocation
  | projectRoomodes
  | projectModesDir (slug : String)
  | globalRoomodes
  | globalModesDir (slug : String)
  | globalSettingsFile
deriving DecidableEq

/-- `saveMode` (part_003): route the write by the record's `source` and
`origin` — `.roomodes` files for origin `json`, per-slug `modes/<slug>.yaml`
files for origin `yaml`. -/
def saveModeTarget (mode : ModeConfig) : WriteLocation :=
  match mode.source, mode.origin with
  | Source.project, Origin.json => WriteLocation.projectRoomodes
  | Source.project, Origin.yaml => WriteLocation.projectModesDir mode.slug
  | Source.global, Origin.json => WriteLocation.globalRoomodes
  | Source.global, Origin.yaml => WriteLocation.globalModesDir mode.slug

/-- Follows the spec's words, for comparison: the unique physical location a
record's scope/format provenance determines — the legacy aggregate file of its
scope for legacy records, the per-slug split file of its scope for split
records. -/
def provenanceLocation (mode : ModeConfig) : WriteLocation :=
  match mode.source, mode.origin with
  | Source.project, Origin.json => WriteLocation.projectRoomodes
  | Source.project, Origin.yaml => WriteLocation.projectModesDir mode.slug
  | Source.global, Origin.json => WriteLocation.globalRoomodes
  | Source.global, Origin.yaml => WriteLocation.globalModesDir mode.slug

/-- `CustomModesManager.updateCustomMode`: a slug not found among the existing
modes is created under the project `.roo/modes` directory; an existing slug is
written to the legacy aggregate of the given scope — the project `.roomodes`
file or the global settings file — regardless of the record's format
provenance. -/
def updateCustomModeTarget (existingModes : List ModeConfig) (slug : String)
    (source : Source) : WriteLocation :=
  match existingModes.find? (fun m => m.slug == slug) with
  | none => WriteLocation.projectModesDir slug
  | some _ =>
      match source with
      | Source.project => WriteLocation.projectRoomodes
      | Source.global => WriteLocation.globalSettingsFile

/-- The two legacy stores `CustomModesManager.deleteCustomMode` operates on:
the loaded global settings modes, and the loaded project `.roomodes` modes
(`none` when the project file does not exist). -/
structure LegacyStores where
  settingsModes : List ModeConfig
  roomodes : Option (List ModeConfig)
deriving DecidableEq

/-- Result of a delete request. -/
inductive DeleteOutcome
  | deleted
  | notFound
deriving DecidableEq

/-- `CustomModesManager.deleteCustomMode`: look the slug up in both legacy
files; if it is in neither, throw `Mode not found` without writing; otherwise
filter it out of the project file (when present there) and out of the global
settings file (when present there). -/
def deleteCustomMode (slug : String) (s : LegacyStores) : LegacyStores × DeleteOutcome :=
  let roomodesModes := s.roomodes.getD []
  let projectMode := roomodesModes.find? (fun m => m.slug == slug)
  let globalMode := s.settingsModes.find? (fun m => m.slug == slug)
  if projectMode.isNone && globalMode.isNone then (s, DeleteOutcome.notFound)
  else
    let afterProject : LegacyStores :=
      match s.roomodes with
      | some l =>
          if projectMode.isSome then
            { s with roomodes := some (l.filter (fun m => !(m.slug == slug))) }
          else s
      | none => s
    let afterGlobal : LegacyStores :=
      if globalMode.isSome then
        { afterProject with
          settingsModes := afterProject.settingsModes.filter (fun m => !(m.slug == slug)) }
      else afterProject
    (afterGlobal, DeleteOutcome.deleted)

/-- Whether some loaded mode carries the given slug. -/
def containsSlug (l : List ModeConfig) (slug : String) : Bool :=
  l.any (fun m => m.slug == slug)

/-- The project `.roomodes` file as the migration command sees it: absent, a
JSON parse failure, or parsed with a `customModes` value (`none` when that
value is not an array). -/
inductive RoomodesFile
  | parseError
  | parsed (customModes : Option (List RawV1Mode))
deriving DecidableEq

/-- The project file-system state migration touches: the legacy `.roomodes`
file and the split `.roo/modes` directory (slug stem ↦ written YAML body). -/
structure ProjectFs where
  roomodes : Option RoomodesFile
  modesDir : List (String × ModeConfigInputV2)
deriving DecidableEq

/-- The per-entry write of `migrateRoomodes`: entries with a missing or invalid
slug are skipped; every other entry is converted (`convertV1ToInternal`, then
`convertToYamlFormat`) and written to `<slug>.yaml`. -/
def migrationWrite (mode : RawV1Mode) : Option (String × ModeConfigInputV2) :=
  match mode.slug with
  | none => none
  | some slug =>
      if isValidSlug slug then
        some (slug,
          convertInternalToV2 (convertV1ToInternal mode slug Source.project Origin.json))
      else none

/-- `migrateRoomodes` (`src/commands/migrateRoomodes.ts`): a missing or
unparsable `.roomodes` file aborts with a message; otherwise each entry of
`customModes` (treated as `[]` when not an array) with a valid slug is written
into `.roo/modes`. The `.roomodes` file itself is never written, renamed or
deleted. -/
def migrateRoomodes (s : ProjectFs) : ProjectFs :=
  match s.roomodes with
  | none => s
  | some RoomodesFile.parseError => s
  | some (RoomodesFile.parsed cm) =>
      { s with modesDir := foldInsert migrationWrite s.modesDir (cm.getD []) }

/-! Helper lemmas about the association-list map operations. -/

theorem optOr_some {α : Type} (a : α) (b : Option α) : optOr (some a) b = some a := rfl

theorem optOr_none {α : Type} (b : Option α) : optOr none b = b := rfl

theorem optOr_none_right {α : Type} (a : Option α) : optOr a none = a := by
  cases a <;> rfl

theorem optOr_assoc {α : Type} (a b c : Option α) :
    optOr a (optOr b c) = optOr (optOr a b) c := by
  cases a <;> rfl

theorem optOr_self_assoc {α : Type} (a b : Option α) :
    optOr a (optOr a b) = optOr a b := by
  cases a <;> rfl

theorem isSome_optOr_left {α : Type} {a : Option α} (b : Option α)
    (h : a.isSome = true) : (optOr a b).isSome = true := by
  cases a with
  | none => simp [Option.isSome] at h
  | some x => rfl

theorem mapGet_mapSet_self {α : Type} (m : List (String × α)) (k : String) (v : α) :
    mapGet (mapSet m k v) k = some v := by
  induction m with
  | nil => simp [mapSet, mapGet]
  | cons p rest ih =>
      by_cases h : p.1 = k
      · simp [mapSet, mapGet, h]
      · simp [mapSet, mapGet, h, ih]

theorem mapSet_cons {α : Type} (p : String × α) (rest : List (String × α))
    (k : String) (v : α) :
    mapSet (p :: rest) k v = if p.1 = k then (k, v) :: rest else p :: mapSet rest k v := rfl

theorem mapGet_cons {α : Type} (p : String × α) (rest : List (String × α)) (k : String) :
    mapGet (p :: rest) k = if p.1 = k then some p.2 else mapGet rest k := rfl

theorem mapGet_mapSet_ne {α : Type} (m : List (String × α)) {k k' : String} (v : α)
    (h : k' ≠ k) : mapGet (mapSet m k v) k' = mapGet m k' := by
  induction m with
  | nil =>
      have hk : ¬ (k = k') := fun hh => h hh.symm
      simp [mapSet, mapGet, hk]
  | cons p rest ih =>
      by_cases hp : p.1 = k
      · have h1 : ¬ (k = k') := fun hh => h hh.symm
        have h2 : ¬ (p.1 = k') := by rw [hp]; exact h1
        rw [mapSet_cons, if_pos hp, mapGet_cons, if_neg h1, mapGet_cons, if_neg h2]
      · rw [mapSet_cons, if_neg hp, mapGet_cons, mapGet_cons]
        by_cases hq : p.1 = k'
        · rw [if_pos hq, if_pos hq]
        · rw [if_neg hq, if_neg hq, ih]

theorem mem_mapSet {α : Type} {m : List (String × α)} {k : String} {v : α}
    {q : String × α} (h : q ∈ mapSet m k v) : q = (k, v) ∨ q ∈ m := by
  induction m with
  | nil =>
      simp [mapSet] at h
      exact Or.inl h
  | cons p rest ih =>
      by_cases hp : p.1 = k
      · simp [mapSet, hp] at h
        rcases h with h | h
        · exact Or.inl h
        · exact Or.inr (List.mem_cons_of_mem _ h)
      · simp [mapSet, hp] at h
        rcases h with h | h
        · exact Or.inr (by simp [h])
        · rcases ih h with h' | h'
          · exact Or.inl h'
          · exact Or.inr (List.mem_cons_of_mem _ h')

theorem mem_keysOf_mapSet {α : Type} {m : List (String × α)} {k k' : String} {v : α}
    (h : k' ∈ keysOf (mapSet m k v)) : k' = k ∨ k' ∈ keysOf m := by
  rcases List.mem_map.mp h with ⟨q, hq, rfl⟩
  rcases mem_mapSet hq with h' | h'
  · exact Or.inl (by rw [h'])
  · exact Or.inr (List.mem_map.mpr ⟨q, h', rfl⟩)

theorem nodup_keysOf_mapSet {α : Type} {m : List (String × α)} (k : String) (v : α)
    (h : (keysOf m).Nodup) : (keysOf (mapSet m k v)).Nodup := by
  induction m with
  | nil => simp [mapSet, keysOf]
  | cons p rest ih =>
      by_cases hp : p.1 = k
      · have : keysOf (mapSet (p :: rest) k v) = k :: keysOf rest := by
          simp [mapSet, hp, keysOf]
        rw [this]
        rw [keysOf, List.map_cons, hp] at h
        exact h
      · have : keysOf (mapSet (p :: rest) k v) = p.1 :: keysOf (mapSet rest k v) := by
          simp [mapSet, hp, keysOf]
        rw [this]
        rw [keysOf, List.map_cons] at h
        rcases List.nodup_cons.mp h with ⟨hmem, hrest⟩
        refine List.nodup_cons.mpr ⟨?_, ih hrest⟩
        intro hin
        rcases mem_keysOf_mapSet hin with h' | h'
        · exact hp h'
        · exact hmem h'

theorem addAll_nil {α : Type} (m : List (String × α)) : addAll m [] = m := rfl

theorem addAll_cons {α : Type} (m : List (String × α)) (p : String × α)
    (l : List (String × α)) : addAll m (p :: l) = addAll (mapSet m p.1 p.2) l := rfl

theorem mapGet_addAll {α : Type} (l : List (String × α)) (m : List (String × α))
    (k : String) : mapGet (addAll m l) k = optOr (lastVal l k) (mapGet m k) := by
  induction l generalizing m with
  | nil => simp [addAll_nil, lastVal, optOr_none]
  | cons p l ih =>
      rw [addAll_cons, ih]
      have hstep : mapGet (mapSet m p.1 p.2) k
          = optOr (if p.1 = k then some p.2 else none) (mapGet m k) := by
        by_cases hp : p.1 = k
        · subst hp
          simp [mapGet_mapSet_self, optOr_some]
        · simp [hp, mapGet_mapSet_ne m p.2 (fun hh => hp hh.symm), optOr_none]
      rw [hstep, lastVal, optOr_assoc]

theorem lastVal_eq_none_of_not_mem {α : Type} {l : List (String × α)} {k : String}
    (h : k ∉ keysOf l) : lastVal l k = none := by
  induction l with
  | nil => rfl
  | cons p l ih =>
      rw [keysOf, List.map_cons, List.mem_cons] at h
      push_neg at h
      have hp : ¬ (p.1 = k) := fun hh => h.1 hh.symm
      rw [lastVal, ih h.2]
      simp [hp, optOr_none]

theorem mapGet_eq_none_of_not_mem {α : Type} {l : List (String × α)} {k : String}
    (h : k ∉ keysOf l) : mapGet l k = none := by
  induction l with
  | nil => rfl
  | cons p l ih =>
      rw [keysOf, List.map_cons, List.mem_cons] at h
      push_neg at h
      have hp : ¬ (p.1 = k) := fun hh => h.1 hh.symm
      rw [mapGet]
      simp [hp, ih h.2]

theorem lastVal_eq_mapGet {α : Type} {l : List (String × α)} (k : String)
    (h : (keysOf l).Nodup) : lastVal l k = mapGet l k := by
  induction l with
  | nil => rfl
  | cons p l ih =>
      rw [keysOf, List.map_cons] at h
      rcases List.nodup_cons.mp h with ⟨hmem, hrest⟩
      by_cases hp : p.1 = k
      · have hk : k ∉ keysOf l := by rw [← hp]; exact hmem
        rw [lastVal, mapGet, lastVal_eq_none_of_not_mem hk]
        simp [hp, optOr_none]
      · rw [lastVal, mapGet, ih hrest]
        simp [hp, optOr_none_right]

theorem mem_addAll {α : Type} {l : List (String × α)} {m : List (String × α)}
    {q : String × α} (h : q ∈ addAll m l) : q ∈ m ∨ q ∈ l := by
  induction l generalizing m with
  | nil => exact Or.inl h
  | cons p l ih =>
      rw [addAll_cons] at h
      rcases ih h with h' | h'
      · rcases mem_mapSet h' with h'' | h''
        · exact Or.inr (by simp [h''])
        · exact Or.inl h''
      · exact Or.inr (List.mem_cons_of_mem _ h')

theorem nodup_keysOf_addAll {α : Type} (l : List (String × α))
    {m : List (String × α)} (h : (keysOf m).Nodup) : (keysOf (addAll m l)).Nodup := by
  induction l generalizing m with
  | nil => exact h
  | cons p l ih =>
      rw [addAll_cons]
      exact ih (nodup_keysOf_mapSet p.1 p.2 h)

theorem foldInsert_eq_addAll {α β : Type} (f : β → Option (String × α))
    (l : List β) (init : List (String × α)) :
    foldInsert f init l = addAll init (l.filterMap f) := by
  induction l generalizing init with
  | nil => rfl
  | cons x l ih =>
      rw [foldInsert, List.foldl_cons, List.filterMap_cons]
      cases hx : f x with
      | none => simpa [hx] using ih init
      | some p =>
          rw [addAll_cons]
          simpa [hx] using ih (mapSet init p.1 p.2)

theorem mem_foldInsert {α β : Type} {f : β → Option (String × α)} {l : List β}
    {init : List (String × α)} {q : String × α} (h : q ∈ foldInsert f init l) :
    q ∈ init ∨ ∃ x ∈ l, f x = some q := by
  rw [foldInsert_eq_addAll] at h
  rcases mem_addAll h with h' | h'
  · exact Or.inl h'
  · exact Or.inr (List.mem_filterMap.mp h')

theorem lastVal_isSome_of_mem {α : Type} {l : List (String × α)} {k : String} {v : α}
    (h : (k, v) ∈ l) : (lastVal l k).isSome = true := by
  induction l with
  | nil => simp at h
  | cons p l ih =>
      rcases List.mem_cons.mp h with h' | h'
      · rw [lastVal]
        cases hl : lastVal l k with
        | some w => rfl
        | none => simp [← h', optOr_none]
      · rw [lastVal]
        exact isSome_optOr_left _ (ih h')

/-! Claim theorems. -/

/-- C1: for every collection of records distributed across the four
(scope, format) stores — each store keyed by distinct slugs, as a `Map` is —
`loadAllModes` holds exactly one record per distinct slug (its key list has no
duplicates), and the record for each slug is the whole candidate from the
highest-precedence store containing it, under project+split > project+legacy >
global+split > global+legacy; lower-precedence candidates are discarded
wholesale, never field-merged. -/
theorem c1_merge_precedence
    (globalYamlModes globalRoomodesModes projectYamlModes projectRoomodesModes : Store)
    (k : String)
    (h1 : (keysOf globalYamlModes).Nodup) (h2 : (keysOf globalRoomodesModes).Nodup)
    (h3 : (keysOf projectYamlModes).Nodup) (h4 : (keysOf projectRoomodesModes).Nodup) :
    mapGet (loadAllModes globalYamlModes globalRoomodesModes projectYamlModes
        projectRoomodesModes) k
      = optOr (mapGet projectYamlModes k)
          (optOr (mapGet projectRoomodesModes k)
            (optOr (mapGet globalYamlModes k) (mapGet globalRoomodesModes k)))
    ∧ (keysOf (loadAllModes globalYamlModes globalRoomodesModes projectYamlModes
        projectRoomodesModes)).Nodup := by
  constructor
  · rw [loadAllModes, mapGet_addAll, mapGet_addAll, mapGet_addAll, mapGet_addAll,
      lastVal_eq_mapGet k h3, lastVal_eq_mapGet k h4, lastVal_eq_mapGet k h1,
      lastVal_eq_mapGet k h2]
    rw [show mapGet ([] : Store) k = none from rfl, optOr_none_right]
  · exact nodup_keysOf_addAll _ (nodup_keysOf_addAll _ (nodup_keysOf_addAll _
      (nodup_keysOf_addAll _ List.nodup_nil)))

/-- Witness for C1 at a concrete store collection: slug `a` lives in the
project YAML store, the project `.roomodes` store and the global `.roomodes`
store, and the project YAML candidate wins; slug `b` lives only in the global
`.roomodes` store and survives. -/
theorem c1_merge_precedence_witness :
    (keysOf ([("a", (⟨"a", "GY", "r", none, [], Source.global, Origin.yaml⟩ : ModeConfig))]
        : Store)).Nodup
    ∧ (keysOf ([("a", (⟨"a", "GJ", "r", none, [], Source.global, Origin.json⟩ : ModeConfig)),
        ("b", (⟨"b", "GJ2", "r", none, [], Source.global, Origin.json⟩ : ModeConfig))]
        : Store)).Nodup
    ∧ (keysOf ([("a", (⟨"a", "PY", "r", none, [], Source.project, Origin.yaml⟩ : ModeConfig))]
        : Store)).Nodup
    ∧ (keysOf ([("a", (⟨"a", "PJ", "r", none, [], Source.project, Origin.json⟩ : ModeConfig))]
        : Store)).Nodup
    ∧ (mapGet (loadAllModes
        [("a", (⟨"a", "GY", "r", none, [], Source.global, Origin.yaml⟩ : ModeConfig))]
        [("a", (⟨"a", "GJ", "r", none, [], Source.global, Origin.json⟩ : ModeConfig)),
         ("b", (⟨"b", "GJ2", "r", none, [], Source.global, Origin.json⟩ : ModeConfig))]
        [("a", (⟨"a", "PY", "r", none, [], Source.project, Origin.yaml⟩ : ModeConfig))]
        [("a", (⟨"a", "PJ", "r", none, [], Source.project, Origin.json⟩ : ModeConfig))]) "a"
      = optOr (mapGet
          [("a", (⟨"a", "PY", "r", none, [], Source.project, Origin.yaml⟩ : ModeConfig))] "a")
          (optOr (mapGet
            [("a", (⟨"a", "PJ", "r", none, [], Source.project, Origin.json⟩ : ModeConfig))] "a")
            (optOr (mapGet
              [("a", (⟨"a", "GY", "r", none, [], Source.global, Origin.yaml⟩ : ModeConfig))] "a")
              (mapGet
                [("a", (⟨"a", "GJ", "r", none, [], Source.global, Origin.json⟩ : ModeConfig)),
                 ("b", (⟨"b", "GJ2", "r", none, [], Source.global, Origin.json⟩ : ModeConfig))]
                "a")))
      ∧ (keysOf (loadAllModes
          [("a", (⟨"a", "GY", "r", none, [], Source.global, Origin.yaml⟩ : ModeConfig))]
          [("a", (⟨"a", "GJ", "r", none, [], Source.global, Origin.json⟩ : ModeConfig)),
           ("b", (⟨"b", "GJ2", "r", none, [], Source.global, Origin.json⟩ : ModeConfig))]
          [("a", (⟨"a", "PY", "r", none, [], Source.project, Origin.yaml⟩ : ModeConfig))]
          [("a", (⟨"a", "PJ", "r", none, [], Source.project, Origin.json⟩ : ModeConfig))])).Nodup) :=
  ⟨by decide, by decide, by decide, by decide,
   c1_merge_precedence _ _ _ _ "a" (by decide) (by decide) (by decide) (by decide)⟩

/-- C4 (amended): both drains run operations one at a time in FIFO submission
order; the `YamlModesManager` drain runs every queued operation to completion
even when one fails, while the `CustomModesManager` drain runs exactly the
longest successful prefix plus the first failing operation, leaving everything
queued behind the first failure unexecuted. -/
theorem c4_queue_fifo (q : List OpResult) :
    ((processQueueYaml q).1 = q ∧ (processQueueYaml q).2.1 = [])
    ∧ ((processQueueCustom q).1
        = q.takeWhile (fun op => op == OpResult.ok)
            ++ (q.dropWhile (fun op => op == OpResult.ok)).take 1
       ∧ (processQueueCustom q).2.1
          = (q.dropWhile (fun op => op == OpResult.ok)).drop 1) := by
  induction q with
  | nil => exact ⟨⟨rfl, rfl⟩, rfl, rfl⟩
  | cons op rest ih =>
      cases op with
      | ok =>
          refine ⟨⟨?_, ?_⟩, ?_, ?_⟩ <;>
            simp [processQueueYaml, processQueueCustom, List.takeWhile_cons,
              List.dropWhile_cons, ih.1.1, ih.1.2, ih.2.1, ih.2.2]
      | err =>
          refine ⟨⟨?_, ?_⟩, ?_, ?_⟩ <;>
            simp [processQueueYaml, processQueueCustom, List.takeWhile_cons,
              List.dropWhile_cons, ih.1.1, ih.1.2]

/-- Counterexample to C4 as stated: with a failing operation queued ahead of a
successful one, the `CustomModesManager` drain runs only the failing operation
and leaves the one queued behind it pending, so not every operation behind a
failure is executed; the `YamlModesManager` drain runs both. -/
theorem c4_queue_counterexample :
    processQueueCustom [OpResult.err, OpResult.ok]
      = ([OpResult.err], [OpResult.ok], true)
    ∧ processQueueYaml [OpResult.err, OpResult.ok]
      = ([OpResult.err, OpResult.ok], [], true)
    ∧ ([OpResult.ok] : List OpResult) ≠ [] := by
  exact ⟨rfl, rfl, by decide⟩

/-- C6: migration is idempotent and non-destructive — neither run writes the
legacy `.roomodes` file, and a second run leaves the split-format root's
record set exactly as the first run left it. -/
theorem c6_migration_idempotent (s : ProjectFs) (k : String) :
    (migrateRoomodes s).roomodes = s.roomodes
    ∧ (migrateRoomodes (migrateRoomodes s)).roomodes = s.roomodes
    ∧ mapGet (migrateRoomodes (migrateRoomodes s)).modesDir k
        = mapGet (migrateRoomodes s).modesDir k := by
  obtain ⟨ro, d⟩ := s
  cases ro with
  | none => exact ⟨rfl, rfl, rfl⟩
  | some f =>
      cases f with
      | parseError => exact ⟨rfl, rfl, rfl⟩
      | parsed cm =>
          refine ⟨rfl, rfl, ?_⟩
          show mapGet (foldInsert migrationWrite
              (foldInsert migrationWrite d (cm.getD [])) (cm.getD [])) k
            = mapGet (foldInsert migrationWrite d (cm.getD [])) k
          rw [foldInsert_eq_addAll, foldInsert_eq_addAll, mapGet_addAll, mapGet_addAll,
            optOr_self_assoc]

/-- C2 (amended): the legacy aggregate loader and the per-file split loaders
(`loadRoomodesModes`, the part_003 YAML directory loaders, and
`loadModeFromYamlFile`) reject at load time every record whose slug violates
`^[A-Za-z0-9-]+$`, so no invalid slug reaches their outputs; the recursive
`YamlModesManager.walk` load path, however, performs no such check (see the
counterexample). -/
theorem c2_slug_validation (data : Option (List RawV1Mode)) (source : Source)
    (p : String × ModeConfig) (files : List YamlDirFile) (q : String × ModeConfig)
    (stem : String) (isProj : Bool) (doc : RawV2Doc) (m : LoadedMode) :
    (p ∈ loadRoomodesModes data source → isValidSlug p.2.slug = true)
    ∧ (q ∈ loadYamlModesDir files source → isValidSlug q.2.slug = true)
    ∧ (loadModeFromYamlFile stem isProj doc = some m → isValidSlug m.slug = true) := by
  refine ⟨?_, ?_, ?_⟩
  · intro h
    cases data with
    | none => simp [loadRoomodesModes] at h
    | some modes =>
        rw [loadRoomodesModes] at h
        rcases mem_foldInsert h with h0 | ⟨x, _, hfx⟩
        · simp at h0
        · rw [roomodesEntry] at hfx
          split at hfx
          · exact absurd hfx (by simp)
          · split at hfx
            · rename_i slug _ hvalid
              rcases Option.some.inj hfx with rfl
              exact hvalid
            · exact absurd hfx (by simp)
  · intro h
    rw [loadYamlModesDir] at h
    rcases mem_foldInsert h with h0 | ⟨x, _, hfx⟩
    · simp at h0
    · rw [yamlDirEntry] at hfx
      split at hfx
      · split at hfx
        · rename_i hvalid
          split at hfx
          · exact absurd hfx (by simp)
          · split at hfx
            · exact absurd hfx (by simp)
            · rcases Option.some.inj hfx with rfl
              exact hvalid
        · exact absurd hfx (by simp)
      · exact absurd hfx (by simp)
  · intro h
    rw [loadModeFromYamlFile] at h
    split at h
    · rename_i hvalid
      split at h
      · exact absurd h (by simp)
      · rcases Option.some.inj h with rfl
        exact hvalid
    · exact absurd h (by simp)

/-- Witness for C2 at concrete inputs: a record surviving each of the three
validating load paths carries a valid slug. -/
theorem c2_slug_validation_witness :
    isValidSlug (("good-slug",
      convertV1ToInternal ⟨some "good-slug", some "N", some "R", none, some []⟩
        "good-slug" Source.project Origin.json) :
        String × ModeConfig).2.slug = true
    ∧ isValidSlug "code" = true :=
  ⟨(c2_slug_validation (some [⟨some "good-slug", some "N", some "R", none, some []⟩])
      Source.project
      ("good-slug", convertV1ToInternal ⟨some "good-slug", some "N", some "R", none, some []⟩
        "good-slug" Source.project Origin.json)
      [] ("", ⟨"", "", "", none, [], Source.global, Origin.json⟩) "" false
      ⟨none, none, none, none, none⟩
      ⟨"", "", "", none, [], Source.global, Origin.json⟩).1 (by decide),
   (c2_slug_validation none Source.project
      ("", ⟨"", "", "", none, [], Source.global, Origin.json⟩)
      [] ("", ⟨"", "", "", none, [], Source.global, Origin.json⟩)
      "code" true ⟨none, some "N", some "R", none, some []⟩
      ⟨"code", "N", "R", none, [], Source.project, Origin.yaml⟩).2.2 (by decide)⟩

/-- Counterexample to C2 as stated: `YamlModesManager.walk` accepts a file
whose content declares the slug `bad slug!`, which violates
`^[A-Za-z0-9-]+$`, and that record reaches the bucket `getYamlModes` returns
on a cache miss. -/
theorem c2_walk_counterexample :
    scanModes [⟨"x", "yaml", some ⟨some "bad slug!", some "n", some "r", none, some []⟩⟩]
      = [⟨"bad slug!", some "n", some "r", none, some [], Source.project⟩]
    ∧ isValidSlug "bad slug!" = false := by
  exact ⟨by decide, by decide⟩

/-- C8 (amended): the split codecs of `yamlUtils` and part_003 take the
record's slug from the filename stem and ignore any slug declared in the file
content; `YamlModesManager.walk`, however, takes the slug from the file
content and ignores the filename (see the counterexample). -/
theorem c8_filename_slug (stem : String) (isProj : Bool) (doc : RawV2Doc)
    (m : LoadedMode) (s : Option String) (files : List YamlDirFile) (source : Source)
    (q : String × ModeConfig) (f : YamlDirFile) (w : WalkMode) (stem2 : String) :
    (loadModeFromYamlFile stem isProj doc = some m → m.slug = stem)
    ∧ loadModeFromYamlFile stem isProj { doc with slug := s }
        = loadModeFromYamlFile stem isProj doc
    ∧ (q ∈ loadYamlModesDir files source → q.2.slug = q.1)
    ∧ (walkDecodeFile source f = some w → f.parsed.bind (fun d => d.slug) = some w.slug)
    ∧ walkDecodeFile source { f with stem := stem2 } = walkDecodeFile source f := by
  refine ⟨?_, ?_, ?_, ?_, ?_⟩
  · intro h
    rw [loadModeFromYamlFile] at h
    split at h
    · split at h
      · exact absurd h (by simp)
      · rcases Option.some.inj h with rfl
        rfl
    · exact absurd h (by simp)
  · cases doc
    rfl
  · intro h
    rw [loadYamlModesDir] at h
    rcases mem_foldInsert h with h0 | ⟨x, _, hfx⟩
    · simp at h0
    · rw [yamlDirEntry] at hfx
      split at hfx
      · split at hfx
        · split at hfx
          · exact absurd hfx (by simp)
          · split at hfx
            · exact absurd hfx (by simp)
            · rcases Option.some.inj hfx with rfl
              rfl
        · exact absurd hfx (by simp)
      · exact absurd hfx (by simp)
  · intro h
    rw [walkDecodeFile] at h
    split at h
    · split at h
      · exact absurd h (by simp)
      · rename_i doc2 hparsed
        split at h
        · exact absurd h (by simp)
        · rename_i s2 hslug
          split at h
          · rcases Option.some.inj h with rfl
            simp [hparsed, hslug]
          · exact absurd h (by simp)
    · exact absurd h (by simp)
  · cases f
    rfl

/-- Witness for C8 at a concrete file: a document declaring slug `other` in a
file named `code.yaml` loads through `loadModeFromYamlFile` with slug `code`,
and the declared slug does not change the result. -/
theorem c8_filename_slug_witness :
    (⟨"code", "N", "R", none, [], Source.project, Origin.yaml⟩ : LoadedMode).slug = "code"
    ∧ loadModeFromYamlFile "code" true
        { (⟨none, some "N", some "R", none, some []⟩ : RawV2Doc) with slug := some "other" }
      = loadModeFromYamlFile "code" true (⟨none, some "N", some "R", none, some []⟩ : RawV2Doc) :=
  ⟨(c8_filename_slug "code" true ⟨none, some "N", some "R", none, some []⟩
      ⟨"code", "N", "R", none, [], Source.project, Origin.yaml⟩ (some "other") [] Source.project
      ("", ⟨"", "", "", none, [], Source.global, Origin.json⟩)
      ⟨"", "yaml", none⟩ ⟨"", none, none, none, none, Source.project⟩ "").1 (by decide),
   (c8_filename_slug "code" true ⟨none, some "N", some "R", none, some []⟩
      ⟨"code", "N", "R", none, [], Source.project, Origin.yaml⟩ (some "other") [] Source.project
      ("", ⟨"", "", "", none, [], Source.global, Origin.json⟩)
      ⟨"", "yaml", none⟩ ⟨"", none, none, none, none, Source.project⟩ "").2.1⟩

/-- Counterexample to C8 as stated: `YamlModesManager.walk` decodes a file
named `good.yaml` whose content declares slug `other` into a record with slug
`other`, not the filename stem `good`. -/
theorem c8_walk_counterexample :
    walkDecodeFile Source.project
        ⟨"good", "yaml", some ⟨some "other", some "n", some "r", none, some []⟩⟩
      = some ⟨"other", some "n", some "r", none, some [], Source.project⟩
    ∧ "other" ≠ "good" := by
  exact ⟨by decide, by decide⟩

/-- C5 (amended): in `YamlModesManager.watchYamlModesFiles`, only change
notifications consult the Self-Suppression Lock — a change event for a locked
slug is ignored, and any event for an unlocked slug invalidates the cache and
fires the refresh callback — but create and delete notifications invalidate
unconditionally, even while the slug's lock is active (see the
counterexample). -/
theorem c5_lock_behavior (lock : List String) (slug : String) (kind : FileEventKind) :
    (kind = FileEventKind.change → lock.contains slug = true →
      handleWatcherEvent lock kind slug = false)
    ∧ (lock.contains slug = false → handleWatcherEvent lock kind slug = true)
    ∧ ((kind = FileEventKind.create ∨ kind = FileEventKind.delete) →
      handleWatcherEvent lock kind slug = true) := by
  refine ⟨?_, ?_, ?_⟩
  · intro hk h
    subst hk
    have h' : slug ∈ lock := by simpa using h
    simp [handleWatcherEvent, h']
  · intro h
    have h' : slug ∉ lock := by simpa using h
    cases kind <;> simp [handleWatcherEvent, h']
  · intro hk
    rcases hk with hk | hk <;> subst hk <;> rfl

/-- Witness for C5 at concrete inputs: a change event for the locked slug is
suppressed, a change event for an unlocked slug is not. -/
theorem c5_lock_behavior_witness :
    handleWatcherEvent ["architect"] FileEventKind.change "architect" = false
    ∧ handleWatcherEvent ["architect"] FileEventKind.change "ask" = true :=
  ⟨(c5_lock_behavior ["architect"] "architect" FileEventKind.change).1 rfl (by decide),
   (c5_lock_behavior ["architect"] "ask" FileEventKind.change).2.1 (by decide)⟩

/-- Counterexample to C5 as stated: a create notification whose derived slug
holds an active Self-Suppression Lock still invalidates the cache and fires
the refresh callback. -/
theorem c5_lock_counterexample :
    List.contains ["architect"] "architect" = true
    ∧ handleWatcherEvent ["architect"] FileEventKind.create "architect" = true := by
  exact ⟨by decide, rfl⟩

/-- C3 (amended): `saveMode` writes every record back to the physical location
its (scope, format) provenance determines; but
`CustomModesManager.updateCustomMode` routes every existing record by scope
alone into a legacy aggregate file — the project `.roomodes` or the global
settings file — regardless of the record's format provenance (see the
counterexample). -/
theorem c3_write_provenance (m : ModeConfig) (modes : List ModeConfig) (slug : String)
    (source : Source) (ex : ModeConfig)
    (h : modes.find? (fun c => c.slug == slug) = some ex) :
    saveModeTarget m = provenanceLocation m
    ∧ updateCustomModeTarget modes slug source
        = (if source = Source.project then WriteLocation.projectRoomodes
           else WriteLocation.globalSettingsFile) := by
  constructor
  · obtain ⟨s, n, r, ci, g, src, org⟩ := m
    cases src <;> cases org <;> rfl
  · unfold updateCustomModeTarget
    rw [h]
    cases source <;> rfl

/-- Witness for C3 at a concrete record: a global legacy record saves to the
global `.roomodes` file, and updating an existing mode with scope `global`
targets the global settings file. -/
theorem c3_write_provenance_witness :
    saveModeTarget ⟨"a", "A", "r", none, [], Source.global, Origin.json⟩
      = provenanceLocation ⟨"a", "A", "r", none, [], Source.global, Origin.json⟩
    ∧ updateCustomModeTarget [⟨"a", "A", "r", none, [], Source.global, Origin.json⟩]
        "a" Source.global
      = (if Source.global = Source.project then WriteLocation.projectRoomodes
         else WriteLocation.globalSettingsFile) :=
  c3_write_provenance ⟨"a", "A", "r", none, [], Source.global, Origin.json⟩
    [⟨"a", "A", "r", none, [], Source.global, Origin.json⟩] "a" Source.global
    ⟨"a", "A", "r", none, [], Source.global, Origin.json⟩ (by decide)

/-- Counterexample to C3 as stated: an existing record loaded from the project
split directory (scope `project`, format `yaml`) is written by
`updateCustomMode` to the project `.roomodes` legacy file, a location with a
different format than its provenance. -/
theorem c3_update_counterexample :
    updateCustomModeTarget [⟨"architect", "Architect", "r", none, [],
        Source.project, Origin.yaml⟩] "architect" Source.project
      = WriteLocation.projectRoomodes
    ∧ provenanceLocation ⟨"architect", "Architect", "r", none, [],
        Source.project, Origin.yaml⟩
      = WriteLocation.projectModesDir "architect"
    ∧ WriteLocation.projectRoomodes ≠ WriteLocation.projectModesDir "architect" := by
  exact ⟨by decide, rfl, by decide⟩

theorem find_isSome_eq_any (p : ModeConfig → Bool) (l : List ModeConfig) :
    (List.find? p l).isSome = l.any p := by
  induction l with
  | nil => rfl
  | cons x l ih =>
      cases hp : p x <;> simp [List.find?_cons, List.any_cons, hp, ih]

theorem containsSlug_filter (l : List ModeConfig) (slug : String) :
    containsSlug (l.filter (fun m => !(m.slug == slug))) slug = false := by
  rw [containsSlug, ← Bool.not_eq_true]
  intro h
  rcases List.any_eq_true.mp h with ⟨x, hx, hpx⟩
  rcases List.mem_filter.mp hx with ⟨_, hq⟩
  rw [hpx] at hq
  simp at hq

/-- C9: `deleteCustomMode` removes the slug from every legacy store containing
it — when it exists in both the project `.roomodes` and the global settings
file it is deleted from both; when it exists in neither, the operation reports
`Mode not found` and leaves both stores unchanged. -/
theorem c9_delete_both_or_missing (slug : String) (s : LegacyStores) :
    (containsSlug (s.roomodes.getD []) slug = true →
      containsSlug s.settingsModes slug = true →
      ((deleteCustomMode slug s).2 = DeleteOutcome.deleted
       ∧ containsSlug ((deleteCustomMode slug s).1.roomodes.getD []) slug = false
       ∧ containsSlug (deleteCustomMode slug s).1.settingsModes slug = false))
    ∧ (containsSlug (s.roomodes.getD []) slug = false →
       containsSlug s.settingsModes slug = false →
       deleteCustomMode slug s = (s, DeleteOutcome.notFound)) := by
  obtain ⟨settings, ro⟩ := s
  constructor
  · intro hp hg
    cases ro with
    | none => simp [containsSlug] at hp
    | some l =>
        simp only [Option.getD_some] at hp
        have hp' : (List.find? (fun m => m.slug == slug) l).isSome = true := by
          rw [find_isSome_eq_any]; exact hp
        have hg' : (List.find? (fun m => m.slug == slug) settings).isSome = true := by
          rw [find_isSome_eq_any]; exact hg
        cases hf : List.find? (fun m => m.slug == slug) l with
        | none => rw [hf] at hp'; simp at hp'
        | some xm =>
            cases hgf : List.find? (fun m => m.slug == slug) settings with
            | none => rw [hgf] at hg'; simp at hg'
            | some xg => simp [deleteCustomMode, hf, hgf, containsSlug_filter]
  · intro hp hg
    have hfp : List.find? (fun m => m.slug == slug) (ro.getD []) = none := by
      have h0 : (List.find? (fun m => m.slug == slug) (ro.getD [])).isSome = false := by
        rw [find_isSome_eq_any]; exact hp
      cases hf : List.find? (fun m => m.slug == slug) (ro.getD []) with
      | none => rfl
      | some x => rw [hf] at h0; simp at h0
    have hfg : List.find? (fun m => m.slug == slug) settings = none := by
      have h0 : (List.find? (fun m => m.slug == slug) settings).isSome = false := by
        rw [find_isSome_eq_any]; exact hg
      cases hf : List.find? (fun m => m.slug == slug) settings with
      | none => rfl
      | some x => rw [hf] at h0; simp at h0
    simp [deleteCustomMode, hfp, hfg]

/-- Witness for C9: slug `arch` present in both legacy stores is deleted from
both; a store pair containing only slug `other` yields `Mode not found`
unchanged. -/
theorem c9_delete_both_or_missing_witness :
    ((deleteCustomMode "arch"
        ⟨[⟨"arch", "G", "r", none, [], Source.global, Origin.json⟩],
         some [⟨"arch", "P", "r", none, [], Source.project, Origin.json⟩]⟩).2
      = DeleteOutcome.deleted
     ∧ containsSlug ((deleteCustomMode "arch"
        ⟨[⟨"arch", "G", "r", none, [], Source.global, Origin.json⟩],
         some [⟨"arch", "P", "r", none, [], Source.project, Origin.json⟩]⟩).1.roomodes.getD [])
        "arch" = false
     ∧ containsSlug (deleteCustomMode "arch"
        ⟨[⟨"arch", "G", "r", none, [], Source.global, Origin.json⟩],
         some [⟨"arch", "P", "r", none, [], Source.project, Origin.json⟩]⟩).1.settingsModes
        "arch" = false)
    ∧ deleteCustomMode "arch"
        ⟨[⟨"other", "G", "r", none, [], Source.global, Origin.json⟩], some []⟩
      = (⟨[⟨"other", "G", "r", none, [], Source.global, Origin.json⟩], some []⟩,
         DeleteOutcome.notFound) :=
  ⟨(c9_delete_both_or_missing "arch"
      ⟨[⟨"arch", "G", "r", none, [], Source.global, Origin.json⟩],
       some [⟨"arch", "P", "r", none, [], Source.project, Origin.json⟩]⟩).1
      (by decide) (by decide),
   (c9_delete_both_or_missing "arch"
      ⟨[⟨"other", "G", "r", none, [], Source.global, Origin.json⟩], some []⟩).2
      (by decide) (by decide)⟩

theorem jsOr_some_empty (t : String) : jsOrString (some t) "" = t := by
  by_cases h : t = ""
  · subst h; rfl
  · simp [jsOrString, h]

/-- C7: a record written through the split-format save path
(`saveModeAsYaml`) and loaded back through `loadModeFromYamlFile` round-trips:
for every valid record — valid slug, non-empty name, role definition non-empty
after trimming, recognized group names — the loaded record agrees with the
written one on slug, name, roleDefinition, customInstructions and groups,
modulo the trimming and the groups array-to-mapping conversion the save path
applies. -/
theorem c7_upsert_roundtrip (mode : ModeConfigY) (isProj : Bool)
    (hslug : isValidSlug mode.slug = true)
    (hname : mode.name ≠ "")
    (hrole : jsTrim mode.roleDefinition ≠ "")
    (hgroups : (convertGroupsArrayToObject mode.groups).all
      (fun p => toolGroups.contains p.1) = true) :
    loadModeFromYamlFile (saveModeAsYamlData mode).1 isProj
        (docOfFileData (saveModeAsYamlData mode).2)
      = some { slug := mode.slug, name := mode.name,
               roleDefinition := jsTrim mode.roleDefinition,
               customInstructions := mode.customInstructions.map jsTrim,
               groups := convertGroupsArrayToObject mode.groups,
               source := if isProj then Source.project else Source.global,
               format := Origin.yaml } := by
  have hr : jsOrString (some (jsTrim mode.roleDefinition)) "" = jsTrim mode.roleDefinition :=
    jsOr_some_empty _
  simp only [saveModeAsYamlData, docOfFileData, loadModeFromYamlFile,
    modeConfigInputParse, schemaV2Parse, hr, hslug]
  have hcond : mode.name ≠ "" ∧ jsTrim mode.roleDefinition ≠ ""
      ∧ ((convertGroupsArrayToObject mode.groups).all
        (fun p => toolGroups.contains p.1)) = true := ⟨hname, hrole, hgroups⟩
  rw [if_pos hcond]
  simp

/-- Witness for C7 at a concrete record: the mode `code` with whitespace
around its fields round-trips to its trimmed logical content. -/
theorem c7_upsert_roundtrip_witness :
    isValidSlug "code" = true
    ∧ ("Code" : String) ≠ ""
    ∧ jsTrim " role " ≠ ""
    ∧ (convertGroupsArrayToObject [GroupEntry.bare "read"]).all
        (fun p => toolGroups.contains p.1) = true
    ∧ loadModeFromYamlFile
        (saveModeAsYamlData
          ⟨"code", "Code", " role ", some " ci ", [GroupEntry.bare "read"],
           Source.project, Origin.yaml⟩).1 true
        (docOfFileData (saveModeAsYamlData
          ⟨"code", "Code", " role ", some " ci ", [GroupEntry.bare "read"],
           Source.project, Origin.yaml⟩).2)
      = some { slug := "code", name := "Code",
               roleDefinition := jsTrim " role ",
               customInstructions := (some " ci ").map jsTrim,
               groups := convertGroupsArrayToObject [GroupEntry.bare "read"],
               source := if true then Source.project else Source.global,
               format := Origin.yaml } :=
  ⟨by decide, by decide, by decide, by decide,
   c7_upsert_roundtrip
     ⟨"code", "Code", " role ", some " ci ", [GroupEntry.bare "read"],
      Source.project, Origin.yaml⟩ true
     (by decide) (by decide) (by decide) (by decide)⟩

/-- C10: `migrateRoomodes` converts legacy entries without validating their
bodies — every entry with a valid slug is migrated, a missing name defaults to
the slug, a missing (or empty) roleDefinition defaults to the empty string —
yet the load-time schema `modeConfigInputSchemaV2` requires a non-empty
roleDefinition, so the emitted split file is rejected by load-time
validation. -/
theorem c10_migration_defaults (d : List (String × ModeConfigInputV2)) (e : RawV1Mode)
    (slug : String) (modes : List RawV1Mode)
    (hs : e.slug = some slug)
    (hv : isValidSlug slug = true)
    (hr : e.roleDefinition = none ∨ e.roleDefinition = some "") :
    (e ∈ modes →
      (mapGet (migrateRoomodes ⟨some (RoomodesFile.parsed (some modes)), d⟩).modesDir
        slug).isSome = true)
    ∧ mapGet (migrateRoomodes ⟨some (RoomodesFile.parsed (some [e])), d⟩).modesDir slug
        = some (convertInternalToV2 (convertV1ToInternal e slug Source.project Origin.json))
    ∧ (e.name = none → (convertV1ToInternal e slug Source.project Origin.json).name = slug)
    ∧ (convertV1ToInternal e slug Source.project Origin.json).roleDefinition = ""
    ∧ schemaV2Parse (docOfFileData
        (convertInternalToV2 (convertV1ToInternal e slug Source.project Origin.json))) = none := by
  have hw : migrationWrite e
      = some (slug, convertInternalToV2 (convertV1ToInternal e slug Source.project Origin.json)) := by
    rw [migrationWrite, hs]
    simp [hv]
  have hrd : (convertV1ToInternal e slug Source.project Origin.json).roleDefinition = "" := by
    rcases hr with h | h <;> simp [convertV1ToInternal, jsOrString, h]
  refine ⟨?_, ?_, ?_, hrd, ?_⟩
  · intro he
    show (mapGet (foldInsert migrationWrite d modes) slug).isSome = true
    rw [foldInsert_eq_addAll, mapGet_addAll]
    exact isSome_optOr_left _
      (lastVal_isSome_of_mem (List.mem_filterMap.mpr ⟨e, he, hw⟩))
  · show mapGet (foldInsert migrationWrite d [e]) slug
      = some (convertInternalToV2 (convertV1ToInternal e slug Source.project Origin.json))
    rw [foldInsert_eq_addAll, List.filterMap_cons, hw]
    simp only [List.filterMap_nil, addAll_cons, addAll_nil]
    exact mapGet_mapSet_self _ _ _
  · intro hn
    simp [convertV1ToInternal, jsOrString, hn]
  · simp [schemaV2Parse, docOfFileData, convertInternalToV2, hrd]

/-- Witness for C10 at a concrete entry: the legacy entry with slug `plain`
and no body fields is migrated with an empty roleDefinition, and the emitted
file fails load-time schema validation. -/
theorem c10_migration_defaults_witness :
    mapGet (migrateRoomodes
        ⟨some (RoomodesFile.parsed (some [⟨some "plain", none, none, none, none⟩])),
         []⟩).modesDir "plain"
      = some (convertInternalToV2 (convertV1ToInternal
          ⟨some "plain", none, none, none, none⟩ "plain" Source.project Origin.json))
    ∧ schemaV2Parse (docOfFileData (convertInternalToV2 (convertV1ToInternal
          ⟨some "plain", none, none, none, none⟩ "plain" Source.project Origin.json))) = none :=
  ⟨(c10_migration_defaults [] ⟨some "plain", none, none, none, none⟩ "plain"
      [⟨some "plain", none, none, none, none⟩] rfl (by decide) (Or.inl rfl)).2.1,
   (c10_migration_defaults [] ⟨some "plain", none, none, none, none⟩ "plain"
      [⟨some "plain", none, none, none, none⟩] rfl (by decide) (Or.inl rfl)).2.2.2.2⟩

end RooModes
